import Mathlib

/-!
Verification of the MM4 molecular-mechanics engine specification against the
repository's C binding surface (src/Bindings/C/MM4.h).  The header declares the
public interface; behaviour of the engine itself (parameter derivation, mass
repartitioning, integration, minimization, snapshots) has no implementation
under src/, so those parts are modelled from the specification, as marked on
each definition.
-/

namespace MM4

/-- A property of an MM4ForceField instance that the spec says is exposed
through batch accessors. -/
inductive FFProp
  | positions
  | velocities
  | forces
  | externalForces
  | stationaryAtoms
  | anchors
  | rigidBodies
  | potentialEnergy
  | kineticEnergy
deriving DecidableEq

/-- Direction of a batch property accessor. -/
inductive Access
  | get
  | set
deriving DecidableEq

/-- One C function declaration from src/Bindings/C/MM4.h: its name, whether its
signature carries an MM4Error** out-parameter, and, when it is a batch property
accessor on an MM4ForceField instance, which property and direction it serves. -/
structure CDecl where
  name : String
  errorParam : Bool
  role : Option (FFProp × Access)
deriving DecidableEq

/-- The full list of function declarations in src/Bindings/C/MM4.h, in header
order.  Only MM4ForceField_simulate and MM4ForceField_minimize take an
MM4Error** out-parameter.  Roles tag the MM4ForceField batch property
accessors (MARK section ForceField/MM4ForceField+Properties.swift) and the
two energy getters. -/
def headerDecls : List CDecl := [
  ⟨"MM4StateDescriptor_init", false, none⟩,
  ⟨"MM4StateDescriptor_deinit", false, none⟩,
  ⟨"MM4StateDescriptor_getEnergy", false, none⟩,
  ⟨"MM4StateDescriptor_getForces", false, none⟩,
  ⟨"MM4StateDescriptor_getPositions", false, none⟩,
  ⟨"MM4StateDescriptor_getVelocities", false, none⟩,
  ⟨"MM4StateDescriptor_setEnergy", false, none⟩,
  ⟨"MM4StateDescriptor_setForces", false, none⟩,
  ⟨"MM4StateDescriptor_setPositions", false, none⟩,
  ⟨"MM4StateDescriptor_setVelocities", false, none⟩,
  ⟨"MM4State_destroy", false, none⟩,
  ⟨"MM4State_getForces", false, none⟩,
  ⟨"MM4State_getKineticEnergy", false, none⟩,
  ⟨"MM4State_getPositions", false, none⟩,
  ⟨"MM4State_getPotentialEnergy", false, none⟩,
  ⟨"MM4State_getVelocities", false, none⟩,
  ⟨"MM4ForceField_state", false, none⟩,
  ⟨"MM4ForceFieldDescriptor_init", false, none⟩,
  ⟨"MM4ForceFieldDescriptor_deinit", false, none⟩,
  ⟨"MM4ForceFieldDescriptor_getParameters", false, none⟩,
  ⟨"MM4ForceFieldDescriptor_getPositions", false, none⟩,
  ⟨"MM4ForceFieldDescriptor_setParameters", false, none⟩,
  ⟨"MM4ForceFieldDescriptor_setPositions", false, none⟩,
  ⟨"MM4ForceField_init", false, none⟩,
  ⟨"MM4ForceField_deinit", false, none⟩,
  ⟨"MM4ForceField_simulate", true, none⟩,
  ⟨"MM4ForceField_minimize", true, none⟩,
  ⟨"MM4ForceField_thermalize", false, none⟩,
  ⟨"MM4ForceField_getExternalForces", false, some (FFProp.externalForces, Access.get)⟩,
  ⟨"MM4ForceField_getForces", false, some (FFProp.forces, Access.get)⟩,
  ⟨"MM4ForceField_getKineticEnergy", false, some (FFProp.kineticEnergy, Access.get)⟩,
  ⟨"MM4ForceField_getPositions", false, some (FFProp.positions, Access.get)⟩,
  ⟨"MM4ForceField_getPotentialEnergy", false, some (FFProp.potentialEnergy, Access.get)⟩,
  ⟨"MM4ForceField_getRigidBodies", false, some (FFProp.rigidBodies, Access.get)⟩,
  ⟨"MM4ForceField_getStationaryAtoms", false, some (FFProp.stationaryAtoms, Access.get)⟩,
  ⟨"MM4ForceField_getVelocities", false, some (FFProp.velocities, Access.get)⟩,
  ⟨"MM4ForceField_setExternalForces", false, some (FFProp.externalForces, Access.set)⟩,
  ⟨"MM4ForceField_setPositions", false, some (FFProp.positions, Access.set)⟩,
  ⟨"MM4ForceField_setStationaryAtoms", false, some (FFProp.stationaryAtoms, Access.set)⟩,
  ⟨"MM4ForceField_setVelocities", false, some (FFProp.velocities, Access.set)⟩,
  ⟨"MM4ForceFieldUpdateDescriptor_init", false, none⟩,
  ⟨"MM4ForceFieldUpdateDescriptor_deinit", false, none⟩,
  ⟨"MM4ForceFieldUpdateDescriptor_getPositions", false, none⟩,
  ⟨"MM4ForceFieldUpdateDescriptor_getVelocities", false, none⟩,
  ⟨"MM4ForceFieldUpdateDescriptor_setPositions", false, none⟩,
  ⟨"MM4ForceFieldUpdateDescriptor_setVelocities", false, none⟩,
  ⟨"MM4ForceField_update", false, none⟩,
  ⟨"MM4Error_init", false, none⟩,
  ⟨"MM4Error_deinit", false, none⟩,
  ⟨"MM4Error_description", false, none⟩,
  ⟨"MM4ParametersDescriptor_init", false, none⟩,
  ⟨"MM4ParametersDescriptor_destroy", false, none⟩,
  ⟨"MM4ParametersDescriptor_getAtomicNumbers", false, none⟩,
  ⟨"MM4ParametersDescriptor_getBonds", false, none⟩,
  ⟨"MM4ParametersDescriptor_getBondOrders", false, none⟩,
  ⟨"MM4ParametersDescriptor_getHydrogenMassRepartitioning", false, none⟩,
  ⟨"MM4ParametersDescriptor_setAtomicNumbers", false, none⟩,
  ⟨"MM4ParametersDescriptor_setBonds", false, none⟩,
  ⟨"MM4ParametersDescriptor_setBondOrders", false, none⟩,
  ⟨"MM4ParametersDescriptor_setHydrogenMassRepartitioning", false, none⟩]

/-- Whether the header declares a batch accessor for property p in direction a
on an MM4ForceField instance. -/
def hasAccessor (p : FFProp) (a : Access) : Bool :=
  headerDecls.any fun d => d.role == some (p, a)

/-- The errorParam flag of the header declaration named s, if one exists. -/
def errorParamOf (s : String) : Option Bool :=
  (headerDecls.find? fun d => d.name == s).map CDecl.errorParam

/-- The statement of claim C1 as written: batch get AND set for each of
positions, velocities, forces, external forces, stationary atoms, anchors and
rigid-body ranges, plus batch get for the two energies. -/
def claimC1 : Prop :=
  (∀ p ∈ [FFProp.positions, FFProp.velocities, FFProp.forces,
      FFProp.externalForces, FFProp.stationaryAtoms, FFProp.anchors,
      FFProp.rigidBodies],
    hasAccessor p Access.get = true ∧ hasAccessor p Access.set = true)
  ∧ hasAccessor FFProp.potentialEnergy Access.get = true
  ∧ hasAccessor FFProp.kineticEnergy Access.get = true

/-- C1 fails on the header: there is no setter for forces, none for rigid-body
ranges, and no anchor accessor in either direction, so the claimed get-and-set
coverage does not hold. -/
theorem batch_accessors_counterexample :
    hasAccessor FFProp.forces Access.set = false
    ∧ hasAccessor FFProp.rigidBodies Access.set = false
    ∧ hasAccessor FFProp.anchors Access.get = false
    ∧ hasAccessor FFProp.anchors Access.set = false
    ∧ ¬ claimC1 := by
  refine ⟨by decide, by decide, by decide, by decide, ?_⟩
  intro h
  exact absurd (h.1 FFProp.anchors (by decide)).1 (by decide)

/-- C1 amended: the header provides batch get and set for positions,
velocities, external forces and the stationary-atom set; batch get only for
forces, rigid-body ranges, potential energy and kinetic energy; and no anchor
accessors at all. -/
theorem batch_accessors_amended :
    (∀ p ∈ [FFProp.positions, FFProp.velocities, FFProp.externalForces,
        FFProp.stationaryAtoms],
      hasAccessor p Access.get = true ∧ hasAccessor p Access.set = true)
    ∧ (∀ p ∈ [FFProp.forces, FFProp.rigidBodies, FFProp.potentialEnergy,
        FFProp.kineticEnergy],
      hasAccessor p Access.get = true)
    ∧ hasAccessor FFProp.forces Access.set = false
    ∧ hasAccessor FFProp.rigidBodies Access.set = false
    ∧ hasAccessor FFProp.anchors Access.get = false
    ∧ hasAccessor FFProp.anchors Access.set = false := by
  decide

/-- C10: the thermalize declaration has no MM4Error** out-parameter, while
simulate and minimize both do, so thermalize has no error channel in the
C interface. -/
theorem thermalize_no_error_channel :
    errorParamOf "MM4ForceField_thermalize" = some false
    ∧ errorParamOf "MM4ForceField_simulate" = some true
    ∧ errorParamOf "MM4ForceField_minimize" = some true := by
  decide

/-- The error kinds of the spec's error-handling design (spec section 7). -/
inductive MM4ErrorKind
  | invalidTopology
  | unsupportedAtomType
  | invalidConfiguration
  | convergenceFailure
  | numericalInstability
deriving DecidableEq

/-- Modelled from the spec: the MM4ParametersDescriptor marshals atomic
numbers, bonds, bond orders and the hydrogen-mass-repartitioning factor for
Parameters construction; its implementation is not under src/, only the
C declarations are.  Atomic numbers are uint8 values, bonds uint32 pairs,
bond orders floats (modelled as rationals). -/
structure ParametersDescriptor where
  atomicNumbers : List Nat
  bonds : List (Nat × Nat)
  bondOrders : List ℚ
  hydrogenMassRepartitioning : ℚ
deriving DecidableEq

/-- Modelled from the spec: a freshly initialized descriptor, before any
setter is called. -/
def descriptorInit : ParametersDescriptor := ⟨[], [], [], 1⟩

/-- Modelled from the spec: MM4ParametersDescriptor_setAtomicNumbers stores
the given array in the descriptor. -/
def setAtomicNumbers (d : ParametersDescriptor) (zs : List Nat) :
    ParametersDescriptor :=
  ⟨zs, d.bonds, d.bondOrders, d.hydrogenMassRepartitioning⟩

/-- Modelled from the spec: MM4ParametersDescriptor_setBonds stores the given
array in the descriptor. -/
def setBonds (d : ParametersDescriptor) (bs : List (Nat × Nat)) :
    ParametersDescriptor :=
  ⟨d.atomicNumbers, bs, d.bondOrders, d.hydrogenMassRepartitioning⟩

/-- Modelled from the spec: MM4ParametersDescriptor_setBondOrders stores the
given array in the descriptor. -/
def setBondOrders (d : ParametersDescriptor) (os : List ℚ) :
    ParametersDescriptor :=
  ⟨d.atomicNumbers, d.bonds, os, d.hydrogenMassRepartitioning⟩

/-- Modelled from the spec: the immutable Parameters value owns the inputs it
was derived from (topology, atomic numbers, bond orders); the queries of the
public interface return them. -/
structure Parameters where
  atomicNumbers : List Nat
  bonds : List (Nat × Nat)
  bondOrders : List ℚ
deriving DecidableEq

/-- Two bonds are the same undirected edge. -/
def sameBond (a b : Nat × Nat) : Bool :=
  (a == b) || (a == (b.2, b.1))

/-- No two entries of the bond list denote the same undirected edge. -/
def noDuplicateBonds : List (Nat × Nat) → Bool
  | [] => true
  | b :: rest => rest.all (fun c => !(sameBond b c)) && noDuplicateBonds rest

/-- Modelled from the spec: topology validation (spec section 4.1) checks
index bounds and rejects self-bonds and duplicate bonds. -/
def validTopology (n : Nat) (bonds : List (Nat × Nat)) : Bool :=
  bonds.all (fun b => b.1 < n && b.2 < n && b.1 != b.2) && noDuplicateBonds bonds

/-- A bond order permitted by the data model (spec section 3): 1, 1.5, 2 or 3. -/
def validBondOrder (o : ℚ) : Bool :=
  o == 1 || o == 3 / 2 || o == 2 || o == 3

/-- Modelled from the spec: Parameters construction from a descriptor.  It
validates the topology and bond orders eagerly, failing with InvalidTopology,
and on success stores the supplied arrays unchanged in the immutable
Parameters value. -/
def buildParameters (d : ParametersDescriptor) :
    Except MM4ErrorKind Parameters :=
  if validTopology d.atomicNumbers.length d.bonds
      && (d.bondOrders.length == d.bonds.length)
      && d.bondOrders.all validBondOrder then
    Except.ok ⟨d.atomicNumbers, d.bonds, d.bondOrders⟩
  else
    Except.error MM4ErrorKind.invalidTopology

/-- C2: Parameters successfully built from atomic numbers, bonds and bond
orders return the identical multiset of each on query: the stored arrays are
exactly the supplied ones. -/
theorem parameters_roundtrip (zs : List Nat) (bs : List (Nat × Nat))
    (os : List ℚ) (P : Parameters)
    (h : buildParameters
        (setBondOrders (setBonds (setAtomicNumbers descriptorInit zs) bs) os)
        = Except.ok P) :
    (P.atomicNumbers : Multiset Nat) = (zs : Multiset Nat)
    ∧ (P.bonds : Multiset (Nat × Nat)) = (bs : Multiset (Nat × Nat))
    ∧ (P.bondOrders : Multiset ℚ) = (os : Multiset ℚ) := by
  unfold buildParameters at h
  split at h
  · cases h
    exact ⟨rfl, rfl, rfl⟩
  · cases h

/-- Concrete round trip for a methane-like system. -/
theorem parameters_roundtrip_witness :
    buildParameters
        (setBondOrders (setBonds (setAtomicNumbers descriptorInit
          [6, 1, 1, 1, 1]) [(0, 1), (0, 2), (0, 3), (0, 4)]) [1, 1, 1, 1])
      = Except.ok ⟨[6, 1, 1, 1, 1], [(0, 1), (0, 2), (0, 3), (0, 4)], [1, 1, 1, 1]⟩
    ∧ (([6, 1, 1, 1, 1] : List Nat) : Multiset Nat)
        = (([6, 1, 1, 1, 1] : List Nat) : Multiset Nat) := by
  refine ⟨by rfl, ?_⟩
  exact (parameters_roundtrip [6, 1, 1, 1, 1] [(0, 1), (0, 2), (0, 3), (0, 4)]
    [1, 1, 1, 1] ⟨[6, 1, 1, 1, 1], [(0, 1), (0, 2), (0, 3), (0, 4)], [1, 1, 1, 1]⟩
    (by rfl)).1

/-- Modelled from the spec: the fixed base-mass table of the mass model
(spec section 4.3), indexed by atomic number, in amu; the exact entries are a
domain constant, with the table total and positive for the supported
elements. -/
def baseMass (z : Nat) : ℚ :=
  match z with
  | 1 => 1008 / 1000
  | 6 => 12011 / 1000
  | 7 => 14007 / 1000
  | 8 => 15999 / 1000
  | 9 => 18998 / 1000
  | 14 => 28085 / 1000
  | 15 => 30974 / 1000
  | 16 => 3206 / 100
  | 32 => 7263 / 100
  | z => (z : ℚ)

/-- The bonded neighbours of atom i in the bond list. -/
def bondNeighbors (i : Nat) (bonds : List (Nat × Nat)) : List Nat :=
  bonds.foldr
    (fun b acc =>
      if b.1 = i then b.2 :: acc else if b.2 = i then b.1 :: acc else acc) []

/-- Modelled from the spec: the per-hydrogen mass transfers of hydrogen-mass
repartitioning.  Each hydrogen (atomic number 1) gains f times its base mass
and the same amount is subtracted from its unique bond partner; a hydrogen
with zero or more than one bonded neighbour makes repartitioning undefined
and the construction fails. -/
def hmrTransfers (zs : List Nat) (bonds : List (Nat × Nat)) (f : ℚ) :
    List Nat → Option (List (Nat × Nat × ℚ))
  | [] => some []
  | i :: rest =>
    if zs.getD i 0 = 1 then
      match bondNeighbors i bonds with
      | [j] =>
        (hmrTransfers zs bonds f rest).map
          (fun ts => (i, j, f * baseMass 1) :: ts)
      | _ => none
    else hmrTransfers zs bonds f rest

/-- Apply one mass transfer (hydrogen index, partner index, amount): the
hydrogen gains the amount, the partner loses it. -/
def applyTransfer (ms : List ℚ) (t : Nat × Nat × ℚ) : List ℚ :=
  let m1 := ms.set t.1 (ms.getD t.1 0 + t.2.2)
  m1.set t.2.1 (m1.getD t.2.1 0 + -t.2.2)

/-- Modelled from the spec: the per-atom masses after hydrogen-mass
repartitioning with factor f, or none when some hydrogen's repartitioning
target is undefined. -/
def repartitionedMasses (zs : List Nat) (bonds : List (Nat × Nat)) (f : ℚ) :
    Option (List ℚ) :=
  (hmrTransfers zs bonds f (List.range zs.length)).map
    (fun ts => ts.foldl applyTransfer (zs.map baseMass))

lemma sum_set_getD_add (l : List ℚ) (i : Nat) (a : ℚ) (h : i < l.length) :
    (l.set i (l.getD i 0 + a)).sum = l.sum + a := by
  induction l generalizing i with
  | nil => simp at h
  | cons x xs ih =>
    cases i with
    | zero =>
      have e : (x :: xs).set 0 ((x :: xs).getD 0 0 + a) = (x + a) :: xs := rfl
      rw [e, List.sum_cons, List.sum_cons]
      ring
    | succ n =>
      have hn : n < xs.length := by simpa using h
      have e : (x :: xs).set (n + 1) ((x :: xs).getD (n + 1) 0 + a)
          = x :: xs.set n (xs.getD n 0 + a) := rfl
      rw [e, List.sum_cons, List.sum_cons, ih n hn]
      ring

lemma applyTransfer_length (ms : List ℚ) (t : Nat × Nat × ℚ) :
    (applyTransfer ms t).length = ms.length := by
  simp [applyTransfer]

lemma applyTransfer_sum (ms : List ℚ) (t : Nat × Nat × ℚ)
    (h1 : t.1 < ms.length) (h2 : t.2.1 < ms.length) :
    (applyTransfer ms t).sum = ms.sum := by
  unfold applyTransfer
  have hlen : (ms.set t.1 (ms.getD t.1 0 + t.2.2)).length = ms.length := by
    simp
  rw [sum_set_getD_add _ _ _ (by rw [hlen]; exact h2),
    sum_set_getD_add _ _ _ h1]
  ring

lemma foldl_applyTransfer (ts : List (Nat × Nat × ℚ)) (ms : List ℚ)
    (h : ∀ t ∈ ts, t.1 < ms.length ∧ t.2.1 < ms.length) :
    (ts.foldl applyTransfer ms).sum = ms.sum
    ∧ (ts.foldl applyTransfer ms).length = ms.length := by
  induction ts generalizing ms with
  | nil => simp
  | cons t rest ih =>
    have ht := h t (List.mem_cons_self t rest)
    have hlen := applyTransfer_length ms t
    have hrest : ∀ u ∈ rest, u.1 < (applyTransfer ms t).length
        ∧ u.2.1 < (applyTransfer ms t).length := by
      intro u hu
      rw [hlen]
      exact h u (List.mem_cons_of_mem t hu)
    have := ih (applyTransfer ms t) hrest
    refine ⟨?_, ?_⟩
    · rw [List.foldl_cons, this.1, applyTransfer_sum ms t ht.1 ht.2]
    · rw [List.foldl_cons, this.2, hlen]

lemma bondNeighbors_lt (n i j : Nat) (bonds : List (Nat × Nat))
    (hb : ∀ b ∈ bonds, b.1 < n ∧ b.2 < n) :
    j ∈ bondNeighbors i bonds → j < n := by
  induction bonds with
  | nil => simp [bondNeighbors]
  | cons b bs ih =>
    have hbb := hb b (List.mem_cons_self b bs)
    have ihs : ∀ c ∈ bs, c.1 < n ∧ c.2 < n := by
      intro c hc
      exact hb c (List.mem_cons_of_mem b hc)
    intro hj
    simp only [bondNeighbors, List.foldr_cons] at hj
    by_cases h1 : b.1 = i
    · rw [if_pos h1] at hj
      rcases List.mem_cons.mp hj with h | h
      · rw [h]; exact hbb.2
      · exact ih ihs h
    · rw [if_neg h1] at hj
      by_cases h2 : b.2 = i
      · rw [if_pos h2] at hj
        rcases List.mem_cons.mp hj with h | h
        · rw [h]; exact hbb.1
        · exact ih ihs h
      · rw [if_neg h2] at hj
        exact ih ihs hj

lemma hmrTransfers_bounds (zs : List Nat) (bonds : List (Nat × Nat)) (f : ℚ)
    (idxs : List Nat) (ts : List (Nat × Nat × ℚ))
    (hb : ∀ b ∈ bonds, b.1 < zs.length ∧ b.2 < zs.length)
    (hidx : ∀ i ∈ idxs, i < zs.length)
    (h : hmrTransfers zs bonds f idxs = some ts) :
    ∀ t ∈ ts, t.1 < zs.length ∧ t.2.1 < zs.length := by
  induction idxs generalizing ts with
  | nil =>
    simp only [hmrTransfers, Option.some.injEq] at h
    subst h
    simp
  | cons i rest ih =>
    have hi : i < zs.length := hidx i (List.mem_cons_self i rest)
    have hrest : ∀ k ∈ rest, k < zs.length := by
      intro k hk
      exact hidx k (List.mem_cons_of_mem i hk)
    simp only [hmrTransfers] at h
    split at h
    · split at h
      next j heq =>
        rcases Option.map_eq_some'.mp h with ⟨ts0, hts0, hcons⟩
        subst hcons
        intro t ht
        rcases List.mem_cons.mp ht with h' | h'
        · subst h'
          refine ⟨hi, ?_⟩
          exact bondNeighbors_lt zs.length i j bonds hb (by rw [heq]; simp)
        · exact ih ts0 hrest hts0 t h'
      next => exact absurd h (by simp)
    · exact ih ts hrest h

/-- C3: the sum of per-atom masses after hydrogen-mass repartitioning equals
the sum of the base masses exactly, for every factor in the valid range
[0, 1], whenever the bond list references valid atoms and repartitioning
succeeds: every transfer moves mass from the hydrogen's partner to the
hydrogen, so the sum of deltas is zero by construction. -/
theorem hmr_mass_conservation (zs : List Nat) (bonds : List (Nat × Nat))
    (f : ℚ) (hb : ∀ b ∈ bonds, b.1 < zs.length ∧ b.2 < zs.length)
    (_hf : 0 ≤ f ∧ f ≤ 1) (ms : List ℚ)
    (h : repartitionedMasses zs bonds f = some ms) :
    ms.sum = (zs.map baseMass).sum := by
  rcases Option.map_eq_some'.mp h with ⟨ts, hts, hms⟩
  subst hms
  have hbounds : ∀ t ∈ ts, t.1 < (zs.map baseMass).length
      ∧ t.2.1 < (zs.map baseMass).length := by
    intro t ht
    rw [List.length_map]
    exact hmrTransfers_bounds zs bonds f (List.range zs.length) ts hb
      (by intro i hi; exact List.mem_range.mp hi) hts t ht
  exact (foldl_applyTransfer ts (zs.map baseMass) hbounds).1

/-- Concrete mass conservation for methane at factor one half: the carbon
loses four times what each hydrogen gains. -/
theorem hmr_mass_conservation_witness :
    repartitionedMasses [6, 1, 1, 1, 1] [(0, 1), (0, 2), (0, 3), (0, 4)]
        (1 / 2)
      = some [1999 / 200, 189 / 125, 189 / 125, 189 / 125, 189 / 125]
    ∧ ([1999 / 200, 189 / 125, 189 / 125, 189 / 125, (189 : ℚ) / 125]).sum
      = (([6, 1, 1, 1, 1] : List Nat).map baseMass).sum := by
  have heval : repartitionedMasses [6, 1, 1, 1, 1]
      [(0, 1), (0, 2), (0, 3), (0, 4)] (1 / 2)
      = some [1999 / 200, 189 / 125, 189 / 125, 189 / 125, 189 / 125] := by
    norm_num [repartitionedMasses, hmrTransfers, applyTransfer, bondNeighbors,
      baseMass, List.range_succ, List.getD, List.set, List.foldl, List.foldr]
  refine ⟨heval, ?_⟩
  exact hmr_mass_conservation [6, 1, 1, 1, 1] [(0, 1), (0, 2), (0, 3), (0, 4)]
    (1 / 2) (by decide) (by norm_num) _ heval

/-- Modelled from the spec: the number of substeps simulate divides the
requested time into, the smallest count whose uniform step obeys the maximum
step size (the exact policy is an implementation choice; this one satisfies
the spec's obligations). -/
def substepCount (time maxStep : ℚ) : ℕ :=
  ⌈time / maxStep⌉.toNat

/-- Modelled from the spec: the substeps taken by simulate(time, maxStep):
uniform steps whose accumulated simulated time is exactly the requested
time. -/
def substeps (time maxStep : ℚ) : List ℚ :=
  List.replicate (substepCount time maxStep)
    (time / (substepCount time maxStep : ℚ))

/-- C4: for positive requested time and maximum step, the substeps of
simulate sum to the requested time exactly and each chosen step size is at
most the given maximum. -/
theorem simulate_substeps_exact (time maxStep : ℚ)
    (ht : 0 < time) (hm : 0 < maxStep) :
    (substeps time maxStep).sum = time
    ∧ ∀ s ∈ substeps time maxStep, s ≤ maxStep := by
  have hceil : (0 : ℤ) < ⌈time / maxStep⌉ :=
    Int.ceil_pos.mpr (div_pos ht hm)
  have hcast : ((substepCount time maxStep : ℤ)) = ⌈time / maxStep⌉ :=
    Int.toNat_of_nonneg hceil.le
  have hnpos : 0 < substepCount time maxStep := by
    have : (0 : ℤ) < (substepCount time maxStep : ℤ) := by
      rw [hcast]; exact hceil
    exact_mod_cast this
  have hnQ : (0 : ℚ) < (substepCount time maxStep : ℚ) := by
    exact_mod_cast hnpos
  constructor
  · rw [substeps, List.sum_replicate, nsmul_eq_mul]
    field_simp
  · intro s hs
    rw [List.eq_of_mem_replicate hs]
    have hle : time / maxStep ≤ (substepCount time maxStep : ℚ) := by
      calc time / maxStep ≤ (⌈time / maxStep⌉ : ℚ) := Int.le_ceil _
        _ = ((substepCount time maxStep : ℤ) : ℚ) := by rw [hcast]
        _ = (substepCount time maxStep : ℚ) := by push_cast; rfl
    have h1 : time ≤ (substepCount time maxStep : ℚ) * maxStep :=
      (div_le_iff₀ hm).mp hle
    rw [div_le_iff₀ hnQ]
    linarith [h1]

/-- Simulating for one picosecond with a maximum step of three tenths runs
four substeps of one quarter each, summing exactly to the requested time. -/
theorem simulate_substeps_exact_witness :
    (0 : ℚ) < 1 ∧ (0 : ℚ) < 3 / 10 ∧ (substeps 1 (3 / 10)).sum = 1 :=
  ⟨by norm_num, by norm_num,
    (simulate_substeps_exact 1 (3 / 10) (by norm_num) (by norm_num)).1⟩

/-- Checks that the ranges, read left to right, tile [cur, N) contiguously:
each range starts where the previous one ended, is nonempty, and the last one
ends at N. -/
def rangesChainFrom (N : Nat) : Nat → List (Nat × Nat) → Bool
  | cur, [] => cur == N
  | cur, r :: rest => (r.1 == cur) && (decide (r.1 < r.2)) && rangesChainFrom N r.2 rest

/-- Modelled from the spec: rigid-body configuration validation at
construction; a configuration whose half-open ranges do not tile [0, N) is
rejected with InvalidConfiguration and no object is created. -/
def checkRigidBodies (N : Nat) (ranges : List (Nat × Nat)) :
    Except MM4ErrorKind (List (Nat × Nat)) :=
  if rangesChainFrom N 0 ranges then Except.ok ranges
  else Except.error MM4ErrorKind.invalidConfiguration

/-- The partition invariant of claim C7: the half-open ranges are sorted and
pairwise non-overlapping (each earlier range lies entirely below each later
one) and their union is exactly [0, N). -/
def sortedDisjointCover (N : Nat) (ranges : List (Nat × Nat)) : Prop :=
  List.Pairwise (fun a b => a.2 ≤ b.1) ranges
  ∧ ∀ k, k < N ↔ ∃ r ∈ ranges, r.1 ≤ k ∧ k < r.2

lemma rangesChainFrom_spec (N : Nat) (ranges : List (Nat × Nat)) (cur : Nat)
    (h : rangesChainFrom N cur ranges = true) :
    cur ≤ N
    ∧ (∀ r ∈ ranges, cur ≤ r.1)
    ∧ List.Pairwise (fun a b => a.2 ≤ b.1) ranges
    ∧ ∀ k, (cur ≤ k ∧ k < N) ↔ ∃ r ∈ ranges, r.1 ≤ k ∧ k < r.2 := by
  induction ranges generalizing cur with
  | nil =>
    simp only [rangesChainFrom, beq_iff_eq] at h
    subst h
    refine ⟨le_refl _, by simp, List.Pairwise.nil, ?_⟩
    intro k
    constructor
    · intro hk; omega
    · intro hk; simp at hk
  | cons r rest ih =>
    simp only [rangesChainFrom, Bool.and_eq_true, beq_iff_eq,
      decide_eq_true_eq] at h
    obtain ⟨⟨hlo, hlt⟩, hchain⟩ := h
    obtain ⟨hN, hlow, hpair, hcover⟩ := ih r.2 hchain
    subst hlo
    refine ⟨by omega, ?_, ?_, ?_⟩
    · intro s hs
      rcases List.mem_cons.mp hs with h' | h'
      · rw [h']
      · have := hlow s h'
        omega
    · exact List.Pairwise.cons (fun s hs => hlow s hs) hpair
    · intro k
      constructor
      · intro ⟨hk1, hk2⟩
        by_cases hk : k < r.2
        · exact ⟨r, List.mem_cons_self r rest, hk1, hk⟩
        · rcases (hcover k).mp ⟨by omega, hk2⟩ with ⟨s, hs, h1, h2⟩
          exact ⟨s, List.mem_cons_of_mem r hs, h1, h2⟩
      · intro ⟨s, hs, h1, h2⟩
        rcases List.mem_cons.mp hs with h' | h'
        · subst h'
          omega
        · have h3 := hlow s h'
          have h4 := (hcover k).mpr ⟨s, h', h1, h2⟩
          omega

/-- C7: a rigid-body configuration accepted at construction satisfies the
partition invariant (ranges sorted, pairwise non-overlapping, union exactly
[0, N)), and a configuration violating the invariant is rejected at
construction with InvalidConfiguration. -/
theorem rigid_body_partition (N : Nat) (ranges : List (Nat × Nat)) :
    (∀ rs, checkRigidBodies N ranges = Except.ok rs
      → sortedDisjointCover N ranges)
    ∧ (¬ sortedDisjointCover N ranges
      → checkRigidBodies N ranges
          = Except.error MM4ErrorKind.invalidConfiguration) := by
  have key : rangesChainFrom N 0 ranges = true → sortedDisjointCover N ranges := by
    intro h
    obtain ⟨-, -, hpair, hcover⟩ := rangesChainFrom_spec N ranges 0 h
    refine ⟨hpair, ?_⟩
    intro k
    rw [← hcover k]
    omega
  constructor
  · intro rs h
    unfold checkRigidBodies at h
    split at h
    next hc => exact key hc
    next => cases h
  · intro hnot
    unfold checkRigidBodies
    split
    next hc => exact absurd (key hc) hnot
    next => rfl

/-- A two-range tiling of five atoms is accepted and satisfies the partition
invariant; a single range that misses atoms is rejected with
InvalidConfiguration. -/
theorem rigid_body_partition_witness :
    sortedDisjointCover 5 [(0, 2), (2, 5)]
    ∧ checkRigidBodies 3 [(0, 1)]
        = Except.error MM4ErrorKind.invalidConfiguration := by
  refine ⟨(rigid_body_partition 5 [(0, 2), (2, 5)]).1 _ rfl,
    (rigid_body_partition 3 [(0, 1)]).2 ?_⟩
  intro h
  rcases (h.2 2).mp (by norm_num) with ⟨r, hr, h1, h2⟩
  simp only [List.mem_singleton] at hr
  subst hr
  omega

/-- Modelled from the spec: the minimizer's backtracking line search
(spec 4.7).  Starting from step size alpha, the candidate proposed by move is
accepted only when it does not increase the energy; otherwise the step is
shrunk and retried, and with exhausted fuel the current point is kept
unchanged. -/
def lineSearch {P : Type} (E : P → ℚ) (move : ℚ → P) (x : P) : ℚ → Nat → P
  | _, 0 => x
  | α, fuel + 1 =>
    let c := move α
    if E c ≤ E x then c else lineSearch E move x (α / 2) fuel

/-- Initial backtracking budget of one minimizer line search. -/
def searchFuel : Nat := 30

/-- Modelled from the spec: one minimizer iteration, a line search along the
descent direction proposed for the current point. -/
def minimizeStep {P : Type} (E : P → ℚ) (dir : P → ℚ → P) (x : P) : P :=
  lineSearch E (dir x) x 1 searchFuel

/-- Modelled from the spec: the iterates visited by
minimize(tolerance, maxIterations), stopping when the energy improvement of
an iteration falls below the tolerance or the iteration cap n is reached. -/
def minimizeTrace {P : Type} (E : P → ℚ) (dir : P → ℚ → P) (tol : ℚ) :
    Nat → P → List P
  | 0, x => [x]
  | n + 1, x =>
    let x2 := minimizeStep E dir x
    if E x - E x2 < tol then [x] else x :: minimizeTrace E dir tol n x2

lemma lineSearch_le {P : Type} (E : P → ℚ) (move : ℚ → P) (x : P) (α : ℚ)
    (fuel : Nat) : E (lineSearch E move x α fuel) ≤ E x := by
  induction fuel generalizing α with
  | zero => exact le_refl _
  | succ n ih =>
    simp only [lineSearch]
    split
    next h => exact h
    next => exact ih _

lemma minimizeStep_le {P : Type} (E : P → ℚ) (dir : P → ℚ → P) (x : P) :
    E (minimizeStep E dir x) ≤ E x :=
  lineSearch_le E (dir x) x 1 searchFuel

lemma minimizeTrace_head {P : Type} (E : P → ℚ) (dir : P → ℚ → P) (tol : ℚ)
    (n : Nat) (x : P) : (minimizeTrace E dir tol n x).head? = some x := by
  cases n with
  | zero => rfl
  | succ m =>
    simp only [minimizeTrace]
    split <;> rfl

/-- C5: along the iterates of a minimize call, the total potential energy
never increases from one iteration to the next: the line search only accepts
candidates that do not increase the energy, for every energy function, every
proposed direction, every tolerance, every iteration cap and every starting
point. -/
theorem minimize_energy_nonincreasing {P : Type} (E : P → ℚ)
    (dir : P → ℚ → P) (tol : ℚ) (n : Nat) (x0 : P) :
    List.Chain' (fun a b => E b ≤ E a) (minimizeTrace E dir tol n x0) := by
  induction n generalizing x0 with
  | zero => simp [minimizeTrace]
  | succ m ih =>
    simp only [minimizeTrace]
    split
    next => simp
    next =>
      refine List.chain'_cons'.mpr ⟨?_, ih _⟩
      intro y hy
      rw [minimizeTrace_head] at hy
      cases hy
      exact minimizeStep_le E dir x0

/-- Coordinates of one atom, mirroring MM4Float3 from the header with the
floats modelled as rationals. -/
structure MM4Float3 where
  x : ℚ
  y : ℚ
  z : ℚ
deriving DecidableEq

/-- Componentwise sum of two coordinate triples. -/
def add3 (u v : MM4Float3) : MM4Float3 :=
  ⟨u.x + v.x, u.y + v.y, u.z + v.z⟩

/-- Scalar multiple of a coordinate triple. -/
def smul3 (a : ℚ) (v : MM4Float3) : MM4Float3 :=
  ⟨a * v.x, a * v.y, a * v.z⟩

/-- The zero coordinate triple. -/
def zero3 : MM4Float3 := ⟨0, 0, 0⟩

/-- The mutable dynamical state of a force field: per-atom positions and
velocities. -/
structure DynState where
  positions : Nat → MM4Float3
  velocities : Nat → MM4Float3

/-- Modelled from the spec: one velocity-Verlet step of the integrator
(spec 4.6) with evaluator Ev, external forces ext, stationary flags stat and
masses m: compute forces, half-update velocities, update positions, recompute
forces, finish the velocity update; stationary atoms have their velocity
forced to zero and their position frozen every step, regardless of the
computed force. -/
def vvStep (Ev : (Nat → MM4Float3) → Nat → MM4Float3) (ext : Nat → MM4Float3)
    (stat : Nat → Bool) (m : Nat → ℚ) (dt : ℚ) (s : DynState) : DynState :=
  let f1 := fun i => add3 (Ev s.positions i) (ext i)
  let vHalf := fun i =>
    if stat i then zero3
    else add3 (s.velocities i) (smul3 (dt / (2 * m i)) (f1 i))
  let p2 := fun i =>
    if stat i then s.positions i
    else add3 (s.positions i) (smul3 dt (vHalf i))
  let f2 := fun i => add3 (Ev p2 i) (ext i)
  let v2 := fun i =>
    if stat i then zero3
    else add3 (vHalf i) (smul3 (dt / (2 * m i)) (f2 i))
  ⟨p2, v2⟩

/-- Modelled from the spec: simulate advances the state through the list of
substeps with velocity-Verlet steps. -/
def simulateRun (Ev : (Nat → MM4Float3) → Nat → MM4Float3)
    (ext : Nat → MM4Float3) (stat : Nat → Bool) (m : Nat → ℚ)
    (steps : List ℚ) (s : DynState) : DynState :=
  steps.foldl (fun st dt => vvStep Ev ext stat m dt st) s

/-- Modelled from the spec: the minimizer's move proposal excludes stationary
atoms from displacement; the others move along the proposed direction scaled
by the line-search step. -/
def maskedMove (stat : Nat → Bool) (d : Nat → MM4Float3) (x : Nat → MM4Float3)
    (α : ℚ) : Nat → MM4Float3 :=
  fun i => if stat i then x i else add3 (x i) (smul3 α (d i))

/-- Modelled from the spec: minimize on atom positions, with stationary atoms
excluded from displacement. -/
def minimizePositions (Em : (Nat → MM4Float3) → ℚ)
    (dir : (Nat → MM4Float3) → Nat → MM4Float3) (stat : Nat → Bool)
    (tol : ℚ) (n : Nat) (x0 : Nat → MM4Float3) : List (Nat → MM4Float3) :=
  minimizeTrace Em (fun x => maskedMove stat (dir x) x) tol n x0

lemma vvStep_stationary (Ev : (Nat → MM4Float3) → Nat → MM4Float3)
    (ext : Nat → MM4Float3) (stat : Nat → Bool) (m : Nat → ℚ) (dt : ℚ)
    (s : DynState) (i : Nat) (hstat : stat i = true) :
    (vvStep Ev ext stat m dt s).positions i = s.positions i
    ∧ (vvStep Ev ext stat m dt s).velocities i = zero3 := by
  simp [vvStep, hstat]

lemma simulateRun_stationary (Ev : (Nat → MM4Float3) → Nat → MM4Float3)
    (ext : Nat → MM4Float3) (stat : Nat → Bool) (m : Nat → ℚ)
    (steps : List ℚ) (s : DynState) (i : Nat) (hstat : stat i = true)
    (hv : s.velocities i = zero3) :
    (simulateRun Ev ext stat m steps s).positions i = s.positions i
    ∧ (simulateRun Ev ext stat m steps s).velocities i = zero3 := by
  induction steps generalizing s with
  | nil => exact ⟨rfl, hv⟩
  | cons dt rest ih =>
    have hstep := vvStep_stationary Ev ext stat m dt s i hstat
    have := ih (vvStep Ev ext stat m dt s) hstep.2
    rw [simulateRun, List.foldl_cons]
    exact ⟨by rw [show (rest.foldl (fun st h => vvStep Ev ext stat m h st)
        (vvStep Ev ext stat m dt s)) = simulateRun Ev ext stat m rest
        (vvStep Ev ext stat m dt s) from rfl, this.1, hstep.1],
      by rw [show (rest.foldl (fun st h => vvStep Ev ext stat m h st)
        (vvStep Ev ext stat m dt s)) = simulateRun Ev ext stat m rest
        (vvStep Ev ext stat m dt s) from rfl, this.2]⟩

lemma lineSearch_eq_or {P : Type} (E : P → ℚ) (move : ℚ → P) (x : P) (α : ℚ)
    (fuel : Nat) :
    lineSearch E move x α fuel = x
    ∨ ∃ β, lineSearch E move x α fuel = move β := by
  induction fuel generalizing α with
  | zero => exact Or.inl rfl
  | succ n ih =>
    simp only [lineSearch]
    split
    next => exact Or.inr ⟨α, rfl⟩
    next => exact ih _

lemma minimizeTrace_invariant {P : Type} (E : P → ℚ) (dir : P → ℚ → P)
    (tol : ℚ) (n : Nat) (x0 : P) (Inv : P → Prop) (h0 : Inv x0)
    (hstep : ∀ x, Inv x → Inv (minimizeStep E dir x)) :
    ∀ x ∈ minimizeTrace E dir tol n x0, Inv x := by
  induction n generalizing x0 with
  | zero =>
    intro x hx
    simp only [minimizeTrace, List.mem_singleton] at hx
    rw [hx]; exact h0
  | succ m ih =>
    intro x hx
    simp only [minimizeTrace] at hx
    split at hx
    next =>
      simp only [List.mem_singleton] at hx
      rw [hx]; exact h0
    next =>
      rcases List.mem_cons.mp hx with h | h
      · rw [h]; exact h0
      · exact ih _ (hstep x0 h0) x h

/-- C6: a stationary atom's position is unchanged by a simulate call and by
every iterate of a minimize call, and its velocity is zero throughout the
simulate call, while non-stationary atoms are free to change. -/
theorem stationary_atoms_frozen (Ev : (Nat → MM4Float3) → Nat → MM4Float3)
    (ext : Nat → MM4Float3) (stat : Nat → Bool) (m : Nat → ℚ)
    (steps : List ℚ) (s : DynState)
    (Em : (Nat → MM4Float3) → ℚ) (dir : (Nat → MM4Float3) → Nat → MM4Float3)
    (tol : ℚ) (n : Nat) (i : Nat)
    (hstat : stat i = true) (hv : s.velocities i = zero3) :
    (simulateRun Ev ext stat m steps s).positions i = s.positions i
    ∧ (simulateRun Ev ext stat m steps s).velocities i = zero3
    ∧ ∀ x ∈ minimizePositions Em dir stat tol n s.positions,
        x i = s.positions i := by
  have hsim := simulateRun_stationary Ev ext stat m steps s i hstat hv
  refine ⟨hsim.1, hsim.2, ?_⟩
  unfold minimizePositions
  refine minimizeTrace_invariant Em (fun x => maskedMove stat (dir x) x) tol n
    s.positions (fun x => x i = s.positions i) rfl ?_
  intro x hx
  rcases lineSearch_eq_or Em (maskedMove stat (dir x) x) x 1 searchFuel with
    h | ⟨β, h⟩
  · rw [minimizeStep, h]; exact hx
  · rw [minimizeStep, h, maskedMove, if_pos hstat]; exact hx

/-- A concrete two-atom system with atom zero stationary under a constant
force field: after two substeps atom zero has not moved and has zero
velocity, and every minimizer iterate keeps it in place. -/
theorem stationary_atoms_frozen_witness :
    (fun i => i == 0) 0 = true
    ∧ (DynState.mk (fun _ => zero3) (fun _ => zero3)).velocities 0 = zero3
    ∧ (simulateRun (fun _ _ => ⟨1, 0, 0⟩) (fun _ => zero3) (fun i => i == 0)
        (fun _ => 1) [1 / 2, 1 / 2]
        (DynState.mk (fun _ => zero3) (fun _ => zero3))).positions 0
      = (DynState.mk (fun _ => zero3) (fun _ => zero3)).positions 0 := by
  refine ⟨rfl, rfl, ?_⟩
  exact (stationary_atoms_frozen (fun _ _ => ⟨1, 0, 0⟩) (fun _ => zero3)
    (fun i => i == 0) (fun _ => 1) [1 / 2, 1 / 2]
    (DynState.mk (fun _ => zero3) (fun _ => zero3))
    (fun _ => 0) (fun _ _ => ⟨1, 1, 1⟩) 1 2 0 rfl rfl).1

/-- The full engine state of a force field between integrator steps:
positions, velocities and the cached forces of the last evaluation. -/
structure EngineState where
  positions : Nat → MM4Float3
  velocities : Nat → MM4Float3
  forces : Nat → MM4Float3

/-- Positions, velocities and forces are mutually consistent: the cached
forces are the evaluator's output on the current positions. -/
def consistentState (Ev : (Nat → MM4Float3) → Nat → MM4Float3)
    (s : EngineState) : Prop :=
  s.forces = Ev s.positions

/-- One full velocity-Verlet step on the engine state, recording the
re-evaluated forces, so a completed step always leaves a consistent state. -/
def vvStepFull (Ev : (Nat → MM4Float3) → Nat → MM4Float3)
    (ext : Nat → MM4Float3) (stat : Nat → Bool) (m : Nat → ℚ) (dt : ℚ)
    (s : EngineState) : EngineState :=
  let d := vvStep Ev ext stat m dt ⟨s.positions, s.velocities⟩
  ⟨d.positions, d.velocities, Ev d.positions⟩

/-- All three components of a coordinate triple pass the finiteness check
isFin (modelling the IEEE non-finite detection of the spec in the rational
embedding). -/
def float3OK (isFin : ℚ → Bool) (v : MM4Float3) : Bool :=
  isFin v.x && isFin v.y && isFin v.z

/-- Every atom of the N-atom state has finite position and velocity. -/
def stateOK (isFin : ℚ → Bool) (N : Nat) (s : EngineState) : Bool :=
  (List.range N).all fun i =>
    float3OK isFin (s.positions i) && float3OK isFin (s.velocities i)

/-- The engine state after running a list of full integrator steps. -/
def stepsFold (Ev : (Nat → MM4Float3) → Nat → MM4Float3)
    (ext : Nat → MM4Float3) (stat : Nat → Bool) (m : Nat → ℚ)
    (steps : List ℚ) (s : EngineState) : EngineState :=
  steps.foldl (fun st dt => vvStepFull Ev ext stat m dt st) s

/-- Modelled from the spec: simulate commits state only after whole steps;
when the scheme detects a non-finite state it stops with NumericalInstability
and the state of the last completed step, never a mid-step state. -/
def runSimulate (Ev : (Nat → MM4Float3) → Nat → MM4Float3)
    (ext : Nat → MM4Float3) (stat : Nat → Bool) (m : Nat → ℚ)
    (isFin : ℚ → Bool) (N : Nat) :
    List ℚ → EngineState → Except (MM4ErrorKind × EngineState) EngineState
  | [], s => Except.ok s
  | dt :: rest, s =>
    let s2 := vvStepFull Ev ext stat m dt s
    if stateOK isFin N s2 then runSimulate Ev ext stat m isFin N rest s2
    else Except.error (MM4ErrorKind.numericalInstability, s)

/-- Modelled from the spec: minimize runs iterations until the energy
improvement falls below the tolerance; if the iteration cap is reached
without converging it reports ConvergenceFailure together with the point the
state was updated to. -/
def runMinimize {P : Type} (E : P → ℚ) (dir : P → ℚ → P) (tol : ℚ) :
    Nat → P → Except (MM4ErrorKind × P) P
  | 0, x => Except.error (MM4ErrorKind.convergenceFailure, x)
  | n + 1, x =>
    let x2 := minimizeStep E dir x
    if E x - E x2 < tol then Except.ok x2 else runMinimize E dir tol n x2

/-- The minimizer point after n unconditional iterations. -/
def minIterate {P : Type} (E : P → ℚ) (dir : P → ℚ → P) : Nat → P → P
  | 0, x => x
  | n + 1, x => minIterate E dir n (minimizeStep E dir x)

lemma vvStepFull_consistent (Ev : (Nat → MM4Float3) → Nat → MM4Float3)
    (ext : Nat → MM4Float3) (stat : Nat → Bool) (m : Nat → ℚ) (dt : ℚ)
    (s : EngineState) : consistentState Ev (vvStepFull Ev ext stat m dt s) :=
  rfl

lemma stepsFold_consistent (Ev : (Nat → MM4Float3) → Nat → MM4Float3)
    (ext : Nat → MM4Float3) (stat : Nat → Bool) (m : Nat → ℚ)
    (steps : List ℚ) (s : EngineState) (hc : consistentState Ev s) :
    consistentState Ev (stepsFold Ev ext stat m steps s) := by
  induction steps generalizing s with
  | nil => exact hc
  | cons dt rest ih =>
    exact ih (vvStepFull Ev ext stat m dt s)
      (vvStepFull_consistent Ev ext stat m dt s)

lemma runSimulate_error (Ev : (Nat → MM4Float3) → Nat → MM4Float3)
    (ext : Nat → MM4Float3) (stat : Nat → Bool) (m : Nat → ℚ)
    (isFin : ℚ → Bool) (N : Nat) (steps : List ℚ) (s : EngineState)
    (e : MM4ErrorKind) (se : EngineState)
    (h : runSimulate Ev ext stat m isFin N steps s = Except.error (e, se)) :
    e = MM4ErrorKind.numericalInstability
    ∧ ∃ k, k ≤ steps.length ∧ se = stepsFold Ev ext stat m (steps.take k) s := by
  induction steps generalizing s with
  | nil => exact absurd h (by simp [runSimulate])
  | cons dt rest ih =>
    simp only [runSimulate] at h
    split at h
    next =>
      obtain ⟨he, k, hk, hse⟩ := ih (vvStepFull Ev ext stat m dt s) h
      refine ⟨he, k + 1, by simpa using hk, ?_⟩
      rw [hse]
      rfl
    next =>
      simp only [Except.error.injEq, Prod.mk.injEq] at h
      obtain ⟨he, hse⟩ := h
      exact ⟨he.symm, 0, Nat.zero_le _, hse.symm⟩

lemma runMinimize_error {P : Type} (E : P → ℚ) (dir : P → ℚ → P) (tol : ℚ)
    (n : Nat) (x : P) (e : MM4ErrorKind) (xe : P)
    (h : runMinimize E dir tol n x = Except.error (e, xe)) :
    e = MM4ErrorKind.convergenceFailure ∧ xe = minIterate E dir n x := by
  induction n generalizing x with
  | zero =>
    simp only [runMinimize, Except.error.injEq, Prod.mk.injEq] at h
    exact ⟨h.1.symm, h.2.symm⟩
  | succ m ih =>
    simp only [runMinimize] at h
    split at h
    next => exact absurd h (by simp)
    next => exact ih (minimizeStep E dir x) h

lemma minIterate_le {P : Type} (E : P → ℚ) (dir : P → ℚ → P) (n : Nat)
    (x : P) : E (minIterate E dir n x) ≤ E x := by
  induction n generalizing x with
  | zero => exact le_refl _
  | succ m ih =>
    exact le_trans (ih (minimizeStep E dir x)) (minimizeStep_le E dir x)

lemma minIterate_add {P : Type} (E : P → ℚ) (dir : P → ℚ → P) (a b : Nat)
    (x : P) : minIterate E dir (a + b) x = minIterate E dir b (minIterate E dir a x) := by
  induction a generalizing x with
  | zero => rw [Nat.zero_add]; rfl
  | succ c ih =>
    rw [show c + 1 + b = (c + b) + 1 from by omega]
    exact ih (minimizeStep E dir x)

lemma minIterate_mono {P : Type} (E : P → ℚ) (dir : P → ℚ → P) (j n : Nat)
    (x : P) (h : j ≤ n) :
    E (minIterate E dir n x) ≤ E (minIterate E dir j x) := by
  obtain ⟨d, rfl⟩ := Nat.le.dest h
  rw [minIterate_add]
  exact minIterate_le E dir d (minIterate E dir j x)

/-- C8: when simulate stops with an error, the error is NumericalInstability
and the reported state is the state after a whole number of completed
integrator steps, with positions, velocities and forces mutually consistent,
never a mid-step state; when minimize stops with an error, the error is
ConvergenceFailure and the reported point is the final iterate, whose energy
is at most that of every earlier iterate, the best point found. -/
theorem action_errors_recoverable (Ev : (Nat → MM4Float3) → Nat → MM4Float3)
    (ext : Nat → MM4Float3) (stat : Nat → Bool) (m : Nat → ℚ)
    (isFin : ℚ → Bool) (N : Nat) (steps : List ℚ) (s0 : EngineState)
    (hc : consistentState Ev s0)
    {P : Type} (Em : P → ℚ) (dir : P → ℚ → P) (tol : ℚ) (n : Nat) (x0 : P) :
    (∀ e se, runSimulate Ev ext stat m isFin N steps s0 = Except.error (e, se)
      → e = MM4ErrorKind.numericalInstability
        ∧ consistentState Ev se
        ∧ ∃ k, k ≤ steps.length
            ∧ se = stepsFold Ev ext stat m (steps.take k) s0)
    ∧ (∀ e xe, runMinimize Em dir tol n x0 = Except.error (e, xe)
      → e = MM4ErrorKind.convergenceFailure
        ∧ xe = minIterate Em dir n x0
        ∧ ∀ j, j ≤ n → Em xe ≤ Em (minIterate Em dir j x0)) := by
  constructor
  · intro e se h
    obtain ⟨he, k, hk, hse⟩ :=
      runSimulate_error Ev ext stat m isFin N steps s0 e se h
    refine ⟨he, ?_, k, hk, hse⟩
    rw [hse]
    exact stepsFold_consistent Ev ext stat m (steps.take k) s0 hc
  · intro e xe h
    obtain ⟨he, hxe⟩ := runMinimize_error Em dir tol n x0 e xe h
    refine ⟨he, hxe, ?_⟩
    intro j hj
    rw [hxe]
    exact minIterate_mono Em dir j n x0 hj

/-- A one-atom system whose velocity leaves the finite range on the first
step: simulate reports NumericalInstability with the untouched initial state,
which is still consistent; a flat-energy minimize with zero tolerance and cap
one reports ConvergenceFailure at its final iterate. -/
theorem action_errors_recoverable_witness :
    runSimulate (fun _ _ => (⟨1, 0, 0⟩ : MM4Float3)) (fun _ => zero3)
        (fun _ => false) (fun _ => 1) (fun q => decide (q < 1)) 1 [1]
        ⟨fun _ => zero3, fun _ => zero3, fun _ => ⟨1, 0, 0⟩⟩
      = Except.error (MM4ErrorKind.numericalInstability,
          ⟨fun _ => zero3, fun _ => zero3, fun _ => ⟨1, 0, 0⟩⟩)
    ∧ consistentState (fun _ _ => (⟨1, 0, 0⟩ : MM4Float3))
        ⟨fun _ => zero3, fun _ => zero3, fun _ => ⟨1, 0, 0⟩⟩
    ∧ runMinimize (fun _ => (0 : ℚ)) (fun x _ => x) 0 1 (5 : ℚ)
      = Except.error (MM4ErrorKind.convergenceFailure, 5)
    ∧ (5 : ℚ) = minIterate (fun _ => (0 : ℚ)) (fun x _ => x) 1 5 := by
  have hrun : runSimulate (fun _ _ => (⟨1, 0, 0⟩ : MM4Float3)) (fun _ => zero3)
      (fun _ => false) (fun _ => 1) (fun q => decide (q < 1)) 1 [1]
      ⟨fun _ => zero3, fun _ => zero3, fun _ => ⟨1, 0, 0⟩⟩
      = Except.error (MM4ErrorKind.numericalInstability,
          ⟨fun _ => zero3, fun _ => zero3, fun _ => ⟨1, 0, 0⟩⟩) := by
    norm_num [runSimulate, vvStepFull, vvStep, stateOK, float3OK, add3, smul3,
      zero3, List.range_succ]
  have hmin : runMinimize (fun _ => (0 : ℚ)) (fun x _ => x) 0 1 (5 : ℚ)
      = Except.error (MM4ErrorKind.convergenceFailure, 5) := by
    norm_num [runMinimize, minimizeStep, lineSearch, searchFuel]
  refine ⟨hrun, ?_, hmin, ?_⟩
  · exact ((action_errors_recoverable (fun _ _ => (⟨1, 0, 0⟩ : MM4Float3))
      (fun _ => zero3) (fun _ => false) (fun _ => 1) (fun q => decide (q < 1))
      1 [1] ⟨fun _ => zero3, fun _ => zero3, fun _ => ⟨1, 0, 0⟩⟩ rfl
      (fun _ => (0 : ℚ)) (fun x _ => x) 0 1 (5 : ℚ)).1 _ _ hrun).2.1
  · exact ((action_errors_recoverable (fun _ _ => (⟨1, 0, 0⟩ : MM4Float3))
      (fun _ => zero3) (fun _ => false) (fun _ => 1) (fun q => decide (q < 1))
      1 [1] ⟨fun _ => zero3, fun _ => zero3, fun _ => ⟨1, 0, 0⟩⟩ rfl
      (fun _ => (0 : ℚ)) (fun x _ => x) 0 1 (5 : ℚ)).2 _ _ hmin).2.1

/-- The selection flags of an MM4StateDescriptor from the header: which
subset of the instantaneous state a snapshot is to contain (one energy flag
covering both energies, as in the header's setEnergy). -/
structure SnapshotSelection where
  energy : Bool
  forces : Bool
  positions : Bool
  velocities : Bool
deriving DecidableEq

/-- Modelled from the spec: the mutable per-atom state an MM4ForceField
instance owns, as exposed by its batch accessors (arrays of length N). -/
structure ForceFieldObj where
  positions : List MM4Float3
  velocities : List MM4Float3
  externalForces : List MM4Float3
  stationary : List Bool
deriving DecidableEq

/-- Modelled from the spec: an MM4State snapshot: an immutable copy of the
selected subset of energy, forces, positions and velocities at one instant;
the caller owns the object created by MM4ForceField_state and must destroy
it (header line 83). -/
structure StateObj where
  potentialEnergy : Option ℚ
  kineticEnergy : Option ℚ
  forces : Option (List MM4Float3)
  positions : Option (List MM4Float3)
  velocities : Option (List MM4Float3)
  callerOwned : Bool

/-- The snapshot MM4ForceField_state produces for a force field at one
instant: the selected quantities are copied out of the live instance (pe, ke
and Eff evaluate potential energy, kinetic energy and forces there), the
rest are absent, and ownership passes to the caller. -/
def snapshotOf (pe ke : ForceFieldObj → ℚ)
    (Eff : ForceFieldObj → List MM4Float3) (d : SnapshotSelection)
    (ff : ForceFieldObj) : StateObj :=
  ⟨if d.energy then some (pe ff) else none,
    if d.energy then some (ke ff) else none,
    if d.forces then some (Eff ff) else none,
    if d.positions then some ff.positions else none,
    if d.velocities then some ff.velocities else none,
    true⟩

/-- The world of one live force field plus the snapshots handed out so far;
a snapshot handle is an index into the snapshot list. -/
structure World where
  ff : ForceFieldObj
  snapshots : List StateObj

/-- Modelled from the spec: the state-snapshot operation on the world:
allocates the snapshot and returns its handle. -/
def takeState (pe ke : ForceFieldObj → ℚ)
    (Eff : ForceFieldObj → List MM4Float3) (d : SnapshotSelection)
    (w : World) : World × Nat :=
  (⟨w.ff, w.snapshots ++ [snapshotOf pe ke Eff d w.ff]⟩, w.snapshots.length)

/-- Any mutation of the live force field instance: it may replace the force
field state arbitrarily (covering setPositions, setVelocities, simulate,
minimize, thermalize, update), but acts on the instance only, not on
caller-owned snapshots. -/
def mutateFF (w : World) (f : ForceFieldObj → ForceFieldObj) : World :=
  ⟨f w.ff, w.snapshots⟩

lemma mutations_preserve_snapshots (w : World)
    (fs : List (ForceFieldObj → ForceFieldObj)) :
    (fs.foldl mutateFF w).snapshots = w.snapshots := by
  induction fs generalizing w with
  | nil => rfl
  | cons f rest ih => exact ih (mutateFF w f)

/-- C9: the snapshot taken from a live force field holds the selected subset
of the instant it was taken at, with ownership passed to the caller, and its
queried values are unaffected by any subsequent sequence of mutations of the
force field. -/
theorem state_snapshot_immutable (pe ke : ForceFieldObj → ℚ)
    (Eff : ForceFieldObj → List MM4Float3) (d : SnapshotSelection) (w : World)
    (fs : List (ForceFieldObj → ForceFieldObj)) :
    (fs.foldl mutateFF (takeState pe ke Eff d w).1).snapshots[(takeState
        pe ke Eff d w).2]?
      = some (snapshotOf pe ke Eff d w.ff)
    ∧ (snapshotOf pe ke Eff d w.ff).callerOwned = true := by
  constructor
  · rw [mutations_preserve_snapshots]
    exact List.getElem?_concat_length w.snapshots (snapshotOf pe ke Eff d w.ff)
  · rfl

end MM4
